import Mathlib

/-!
# Verification of the paper-extract schema/extraction core

A shallow embedding of the repository's Rust sources:

* `src/schema.rs` — the schema row validator (`SchemaField::deserialize`),
  the schema loader (`parse_schema_csv`) and the output-contract compiler
  (`build_json_schema`);
* `src/main.rs` — its own `SchemaField`, `build_json_schema`, the prompt
  construction inside `call_openrouter`, and `write_csv`;
* `src/prompt.rs` — `build_prompt`.

Rust `String::len` is the UTF-8 byte length, so string lengths are modelled
with `utf8Len`; `str::is_ascii` is modelled as every character
having code point below 128 (equivalent for valid UTF-8).  JSON values are
modelled by an inductive `Json` whose objects keep the member order written
in the source's `json!` literals; none of the compiled contracts contain
numeric literals, and numbers only occur as payloads of extraction results,
where they are modelled by `Int` (resp. an abstract coordinate type) since
no arithmetic is ever performed on them.
-/

namespace PaperExtract

instance {ε α : Type _} [DecidableEq ε] [DecidableEq α] : DecidableEq (Except ε α) := fun
  | .ok a, .ok b =>
    if h : a = b then .isTrue (by rw [h]) else .isFalse (fun hc => h (Except.ok.inj hc))
  | .ok _, .error _ => .isFalse (fun h => Except.noConfusion h)
  | .error _, .ok _ => .isFalse (fun h => Except.noConfusion h)
  | .error e, .error f =>
    if h : e = f then .isTrue (by rw [h]) else .isFalse (fun hc => h (Except.error.inj hc))

/-- Rust `str::is_ascii`: every code point is below 128. -/
def asciiOnly (s : String) : Bool :=
  s.data.all (fun c => c.toNat < 128)

/-- The UTF-8 byte width of one code point. -/
def charUtf8Size (c : Char) : Nat :=
  if c.toNat < 0x80 then 1
  else if c.toNat < 0x800 then 2
  else if c.toNat < 0x10000 then 3
  else 4

/-- Rust `String::len`: the UTF-8 byte length of the string. -/
def utf8Len (s : String) : Nat :=
  s.data.foldl (fun n c => n + charUtf8Size c) 0

/-- JSON values, as produced by `serde_json::Value`.  Objects are association
lists in the member order written in the source. -/
inductive Json where
  | null : Json
  | bool : Bool → Json
  | num : Int → Json
  | str : String → Json
  | arr : List Json → Json
  | obj : List (String × Json) → Json
  deriving Repr

/-- Member lookup in a JSON object; `none` on non-objects and absent keys. -/
def Json.lookup : Json → String → Option Json
  | .obj l, k => l.lookup k
  | _, _ => none

/-- Two-level member lookup: `j["k1"]["k2"]`. -/
def Json.lookup2 (j : Json) (k1 k2 : String) : Option Json :=
  match j.lookup k1 with
  | some v => v.lookup k2
  | none => none

/-- The member names of a JSON object, in order; `[]` on non-objects. -/
def Json.keys : Json → List String
  | .obj l => l.map Prod.fst
  | _ => []

/-- Rust `SchemaKind` from `src/schema.rs`. -/
inductive SchemaKind where
  | Categorical : SchemaKind
  | Number : SchemaKind
  | Text : SchemaKind
  deriving Repr, DecidableEq

/-- Rust `SchemaField` from `src/schema.rs`: one validated schema row. -/
structure SchemaField where
  field_name : String
  description : String
  kind : SchemaKind
  infer : Bool
  deriving Repr, DecidableEq

/-- Rust `RawSchemaField` from `src/schema.rs`: the four raw string cells of one
schema row, before validation. -/
structure RawSchemaField where
  field_name : String
  description : String
  kind : String
  infer : String
  deriving Repr, DecidableEq

/-- The validation failures of `SchemaField::deserialize` in `src/schema.rs`,
with the data each error message carries. -/
inductive ValidationError where
  | fieldNameTooLong (name : String) (len : Nat)
  | nonAsciiFieldName (name : String)
  | descriptionTooLong (name : String) (len : Nat)
  | nonAsciiDescription (name : String)
  | invalidKind (raw : String) (name : String)
  | invalidInfer (raw : String) (name : String)
  deriving Repr, DecidableEq

/-- The `match raw.kind.as_str()` arm of `SchemaField::deserialize`:
lowercase-only literals. -/
def parseKind : String → Option SchemaKind
  | "categorical" => some .Categorical
  | "number" => some .Number
  | "text" => some .Text
  | _ => none

/-- The `match raw.infer.as_str()` arm of `SchemaField::deserialize`:
lowercase-only literals. -/
def parseInfer : String → Option Bool
  | "true" => some true
  | "false" => some false
  | _ => none

/-- Rust `SchemaField::deserialize` from `src/schema.rs`: validate one raw row.
The checks run in the source's order: field-name length (`> 40`), field-name
ASCII-ness, description length (`> 120`), description ASCII-ness, kind
literal, infer literal. -/
def SchemaField.deserialize (raw : RawSchemaField) : Except ValidationError SchemaField :=
  if utf8Len raw.field_name > 40 then
    .error (.fieldNameTooLong raw.field_name (utf8Len raw.field_name))
  else if ¬ asciiOnly raw.field_name then
    .error (.nonAsciiFieldName raw.field_name)
  else if utf8Len raw.description > 120 then
    .error (.descriptionTooLong raw.field_name (utf8Len raw.description))
  else if ¬ asciiOnly raw.description then
    .error (.nonAsciiDescription raw.field_name)
  else
    match parseKind raw.kind with
    | none => .error (.invalidKind raw.kind raw.field_name)
    | some kind =>
      match parseInfer raw.infer with
      | none => .error (.invalidInfer raw.infer raw.field_name)
      | some infer =>
        .ok { field_name := raw.field_name
              description := raw.description
              kind := kind
              infer := infer }

/-- The failures of `parse_schema_csv` in `src/schema.rs`: a row that fails
validation (reported with its 1-based row number, the header counting as
row 1), or a duplicate field name (reported with the row number of the
second occurrence). -/
inductive LoadError where
  | rowError (row : Nat) (e : ValidationError)
  | duplicateFieldName (name : String) (row : Nat)
  deriving Repr, DecidableEq

/-- The loop of `parse_schema_csv` from `src/schema.rs` over the remaining
rows: `index` is the 0-based index of the next data row (so its reported row
number is `index + 2`, the header being row 1) and `seen` the set of
already-accepted field names. -/
def parseRows (index : Nat) (seen : List String) :
    List RawSchemaField → Except LoadError (List SchemaField)
  | [] => .ok []
  | r :: rs =>
    match SchemaField.deserialize r with
    | .error e => .error (.rowError (index + 2) e)
    | .ok f =>
      if f.field_name ∈ seen then
        .error (.duplicateFieldName f.field_name (index + 2))
      else
        match parseRows (index + 1) (f.field_name :: seen) rs with
        | .error e => .error e
        | .ok fs => .ok (f :: fs)

/-- Rust `parse_schema_csv` from `src/schema.rs`, over the decoded row stream
supplied by the CSV reader collaborator. -/
def parse_schema_csv (rows : List RawSchemaField) : Except LoadError (List SchemaField) :=
  parseRows 0 [] rows

/-- The per-field `json!` literal inside the loop of `build_json_schema` in
`src/schema.rs`, with `field_type` computed by the `match field.kind` just
above it. -/
def fieldSchema (field : SchemaField) : Json :=
  let field_type : String :=
    match field.kind with
    | .Number => "number"
    | .Categorical | .Text => "string"
  .obj [
    ("type", .str "object"),
    ("properties", .obj [
      ("value", .obj [
        ("type", .arr [.str field_type, .str "null"]),
        ("description", .str field.description)]),
      ("match_type", .obj [
        ("type", .str "string"),
        ("enum", .arr [.str "found", .str "not_found", .str "inferred"])]),
      ("comment", .obj [("type", .arr [.str "string", .str "null"])]),
      ("page", .obj [("type", .str "integer")]),
      ("xmin", .obj [("type", .str "number")]),
      ("ymin", .obj [("type", .str "number")]),
      ("xmax", .obj [("type", .str "number")]),
      ("ymax", .obj [("type", .str "number")])]),
    ("required", .arr [.str "value", .str "match_type", .str "comment", .str "page",
      .str "xmin", .str "ymin", .str "xmax", .str "ymax"]),
    ("additionalProperties", .bool false)]

/-- Rust `build_json_schema` from `src/schema.rs`: the loop pushes one property
and one required name per field, then the top-level object is assembled. -/
def build_json_schema (fields : List SchemaField) : Json :=
  let acc := fields.foldl
    (fun acc field =>
      (acc.1 ++ [(field.field_name, fieldSchema field)], acc.2 ++ [field.field_name]))
    (([] : List (String × Json)), ([] : List String))
  .obj [
    ("type", .str "object"),
    ("properties", .obj acc.1),
    ("required", .arr (acc.2.map .str)),
    ("additionalProperties", .bool false)]

/-- Rust `SchemaField` from `src/main.rs`: `kind` is a raw string there and
`infer` a boolean. -/
structure MainSchemaField where
  field_name : String
  description : String
  kind : String
  infer : Bool
  deriving Repr, DecidableEq

/-- The per-field `json!` literal inside the loop of `build_json_schema` in
`src/main.rs`: `comment` is a plain (non-nullable) string and there is no
per-field `additionalProperties`; `field_type` comes from the
`match field.kind.as_str()` just above it (`"number"` maps to `number`,
everything else to `string`). -/
def mainFieldSchema (field : MainSchemaField) : Json :=
  let field_type : String := if field.kind = "number" then "number" else "string"
  .obj [
    ("type", .str "object"),
    ("properties", .obj [
      ("value", .obj [
        ("type", .arr [.str field_type, .str "null"]),
        ("description", .str field.description)]),
      ("match_type", .obj [
        ("type", .str "string"),
        ("enum", .arr [.str "found", .str "not_found", .str "inferred"])]),
      ("comment", .obj [("type", .str "string")]),
      ("page", .obj [("type", .str "integer")]),
      ("xmin", .obj [("type", .str "number")]),
      ("ymin", .obj [("type", .str "number")]),
      ("xmax", .obj [("type", .str "number")]),
      ("ymax", .obj [("type", .str "number")])]),
    ("required", .arr [.str "value", .str "match_type", .str "comment", .str "page",
      .str "xmin", .str "ymin", .str "xmax", .str "ymax"])]

/-- Rust `build_json_schema` from `src/main.rs`. -/
def main_build_json_schema (fields : List MainSchemaField) : Json :=
  let acc := fields.foldl
    (fun acc field =>
      (acc.1 ++ [(field.field_name, mainFieldSchema field)], acc.2 ++ [field.field_name]))
    (([] : List (String × Json)), ([] : List String))
  .obj [
    ("type", .str "object"),
    ("properties", .obj acc.1),
    ("required", .arr (acc.2.map .str)),
    ("additionalProperties", .bool false)]

/-- The lowercase literal that `parse_schema_csv` accepted for each
`SchemaKind`, mapping a `src/schema.rs` field onto the raw-string field type
of `src/main.rs`. -/
def kindLiteral : SchemaKind → String
  | .Categorical => "categorical"
  | .Number => "number"
  | .Text => "text"

/-- A `src/schema.rs` field viewed as the corresponding `src/main.rs` field:
identical name, description, kind and infer flag. -/
def toMainField (f : SchemaField) : MainSchemaField :=
  ⟨f.field_name, f.description, kindLiteral f.kind, f.infer⟩

/-- The per-field listing accumulated by the loop in `build_prompt`
(`src/prompt.rs`) and equally by `call_openrouter` (`src/main.rs`): one
`- **name**: description` line per field, plus an inference instruction line
when `infer` is set. -/
def buildFieldsList (fields : List SchemaField) : String :=
  fields.foldl
    (fun fields_list field =>
      let fields_list :=
        fields_list ++ "- **" ++ field.field_name ++ "**: " ++ field.description ++ "\n"
      if field.infer then
        fields_list ++ "  (This field should be inferred if not explicitly found)\n"
      else fields_list)
    ""

/-- Rust `build_prompt` from `src/prompt.rs`, parameterized by the template text
(the external resource `prompt.md`, which has the single substitution point
`\x7b\x7bFIELDS_LIST\x7d\x7d`). -/
def build_prompt (template : String) (fields : List SchemaField) : String :=
  template.replace "\x7b\x7bFIELDS_LIST\x7d\x7d" (buildFieldsList fields)

/-- Rust `ExtractedField` from `src/main.rs`: one decoded per-field record.  The
four coordinates are `f64` in the source; `write_csv` only ever passes them
to `to_string`, so they are modelled by an abstract type `Num` together with
the collaborator-supplied rendering function. -/
structure ExtractedField (Num : Type) where
  value : Option Json
  match_type : String
  comment : String
  page : Int
  xmin : Num
  ymin : Num
  xmax : Num
  ymax : Num

/-- The `match field_data.value` rendering in `write_csv` (`src/main.rs`);
`jsonToStr` stands for the `serde_json::to_string` fallback of the last
arm. -/
def renderValue (jsonToStr : Json → String) : Option Json → String
  | some (.str string_val) => string_val
  | some (.num number_val) => toString number_val
  | some (.bool bool_val) => toString bool_val
  | some .null => ""
  | none => ""
  | some value_obj => jsonToStr value_obj

/-- The row loop of `write_csv` (`src/main.rs`): walk the schema fields in
original order, look each `field_name` up in the decoded extraction result,
and fail with the source's panic message on the first field with no
entry. -/
def writeCsvRows {Num : Type} (numToStr : Num → String) (jsonToStr : Json → String)
    (extracted : List (String × ExtractedField Num)) :
    List MainSchemaField → Except String (List (List String))
  | [] => .ok []
  | field :: fs =>
    match extracted.lookup field.field_name with
    | none => .error ("Field " ++ field.field_name ++ " not found in extraction result")
    | some field_data =>
      match writeCsvRows numToStr jsonToStr extracted fs with
      | .error e => .error e
      | .ok rows =>
        .ok ([field.field_name, renderValue jsonToStr field_data.value,
          field_data.match_type, field_data.comment, toString field_data.page,
          numToStr field_data.xmin, numToStr field_data.ymin,
          numToStr field_data.xmax, numToStr field_data.ymax] :: rows)

/-- Rust `write_csv` from `src/main.rs` at the level of the emitted row set: the
header row followed by one row per schema field, or the first
field-missing failure. -/
def write_csv {Num : Type} (numToStr : Num → String) (jsonToStr : Json → String)
    (fields : List MainSchemaField) (extracted : List (String × ExtractedField Num)) :
    Except String (List (List String)) :=
  match writeCsvRows numToStr jsonToStr extracted fields with
  | .error e => .error e
  | .ok rows =>
    .ok (["field_name", "value", "match_type", "comment", "page",
      "xmin", "ymin", "xmax", "ymax"] :: rows)

/-- Modelled from the spec: the repository sources under scrutiny contain no
Batch Planner (no chunking code exists in `src/`); §4.5 describes it as "a
simple fixed-size chunking that preserves original order within and across
batches; the last batch may be smaller".  `chunkAux k` cuts off chunks of
`k + 1` elements at a time. -/
def chunkAux {α : Type} (k : Nat) : List α → List (List α)
  | [] => []
  | a :: as => (a :: as.take k) :: chunkAux k (as.drop k)
termination_by l => l.length
decreasing_by simp only [List.length_drop, List.length_cons]; omega

/-- Modelled from the spec: the Batch Planner `(fields, batch_size) →
ordered sequence of batches` for `batch_size ≥ 1` (zero is excluded by
configuration validation per §4.5). -/
def planBatches {α : Type} (fields : List α) (batch_size : Nat) : List (List α) :=
  chunkAux (batch_size - 1) fields

/-- Characterization of successful row validation: `deserialize` returns `ok`
exactly when every check passes, and the output copies the raw cells. -/
theorem deserialize_ok_iff (raw : RawSchemaField) (f : SchemaField) :
    SchemaField.deserialize raw = .ok f ↔
      utf8Len raw.field_name ≤ 40 ∧ asciiOnly raw.field_name = true ∧
      utf8Len raw.description ≤ 120 ∧ asciiOnly raw.description = true ∧
      parseKind raw.kind = some f.kind ∧ parseInfer raw.infer = some f.infer ∧
      f.field_name = raw.field_name ∧ f.description = raw.description := by
  constructor
  · intro h
    unfold SchemaField.deserialize at h
    split at h <;> try simp_all
    split at h <;> try simp_all
    split at h <;> try simp_all
    split at h <;> try simp_all
    split at h <;> try simp_all
    split at h <;> simp_all [Nat.not_lt]
    subst h
    exact ⟨rfl, rfl, rfl, rfl⟩
  · rintro ⟨h1, h2, h3, h4, h5, h6, h7, h8⟩
    unfold SchemaField.deserialize
    rw [if_neg (by omega), if_neg (by simp [h2]), if_neg (by omega),
      if_neg (by simp [h4]), h5, h6]
    cases f
    simp_all

/-- C8: for every raw schema row, the validation checks run in the fixed
order field-name length, field-name ASCII-ness, description length,
description ASCII-ness, kind literal, infer literal; a row violating several
checks gets the error of the earliest violated check, and a `SchemaField` is
returned only when every check passes (all-or-nothing, copying the raw
cells). -/
theorem deserialize_checks_in_fixed_order (raw : RawSchemaField) :
    (40 < utf8Len raw.field_name →
      SchemaField.deserialize raw =
        .error (.fieldNameTooLong raw.field_name (utf8Len raw.field_name)))
  ∧ (utf8Len raw.field_name ≤ 40 → asciiOnly raw.field_name = false →
      SchemaField.deserialize raw = .error (.nonAsciiFieldName raw.field_name))
  ∧ (utf8Len raw.field_name ≤ 40 → asciiOnly raw.field_name = true →
      120 < utf8Len raw.description →
      SchemaField.deserialize raw =
        .error (.descriptionTooLong raw.field_name (utf8Len raw.description)))
  ∧ (utf8Len raw.field_name ≤ 40 → asciiOnly raw.field_name = true →
      utf8Len raw.description ≤ 120 → asciiOnly raw.description = false →
      SchemaField.deserialize raw = .error (.nonAsciiDescription raw.field_name))
  ∧ (utf8Len raw.field_name ≤ 40 → asciiOnly raw.field_name = true →
      utf8Len raw.description ≤ 120 → asciiOnly raw.description = true →
      parseKind raw.kind = none →
      SchemaField.deserialize raw = .error (.invalidKind raw.kind raw.field_name))
  ∧ (∀ kind, utf8Len raw.field_name ≤ 40 → asciiOnly raw.field_name = true →
      utf8Len raw.description ≤ 120 → asciiOnly raw.description = true →
      parseKind raw.kind = some kind → parseInfer raw.infer = none →
      SchemaField.deserialize raw = .error (.invalidInfer raw.infer raw.field_name))
  ∧ (∀ f, SchemaField.deserialize raw = .ok f ↔
      utf8Len raw.field_name ≤ 40 ∧ asciiOnly raw.field_name = true ∧
      utf8Len raw.description ≤ 120 ∧ asciiOnly raw.description = true ∧
      parseKind raw.kind = some f.kind ∧ parseInfer raw.infer = some f.infer ∧
      f.field_name = raw.field_name ∧ f.description = raw.description) := by
  refine ⟨?_, ?_, ?_, ?_, ?_, ?_, fun f => deserialize_ok_iff raw f⟩
  · intro h1
    unfold SchemaField.deserialize
    rw [if_pos h1]
  · intro h1 h2
    unfold SchemaField.deserialize
    rw [if_neg (by omega), if_pos (by simp [h2])]
  · intro h1 h2 h3
    unfold SchemaField.deserialize
    rw [if_neg (by omega), if_neg (by simp [h2]), if_pos h3]
  · intro h1 h2 h3 h4
    unfold SchemaField.deserialize
    rw [if_neg (by omega), if_neg (by simp [h2]), if_neg (by omega),
      if_pos (by simp [h4])]
  · intro h1 h2 h3 h4 h5
    unfold SchemaField.deserialize
    rw [if_neg (by omega), if_neg (by simp [h2]), if_neg (by omega),
      if_neg (by simp [h4]), h5]
  · intro kind h1 h2 h3 h4 h5 h6
    unfold SchemaField.deserialize
    rw [if_neg (by omega), if_neg (by simp [h2]), if_neg (by omega),
      if_neg (by simp [h4]), h5, h6]

/-- Witness for C8: a row that violates the ASCII check and the kind and
infer checks at once is reported with the earliest error, the non-ASCII
field name. -/
theorem deserialize_checks_in_fixed_order_witness :
    SchemaField.deserialize ⟨"né", "ő", "bogus", "maybe"⟩ =
      .error (.nonAsciiFieldName "né") :=
  (deserialize_checks_in_fixed_order ⟨"né", "ő", "bogus", "maybe"⟩).2.1
    (by decide) (by decide)

/-- C3: a row whose `field_name` exceeds the maximum byte length (40 in the
source, although the message text says 16) is rejected with a
field-name-too-long error carrying the name and its length, whatever the
rest of the row holds; a `field_name` at or below the maximum never produces
that error. -/
theorem deserialize_field_name_length (raw : RawSchemaField) :
    (40 < utf8Len raw.field_name →
      SchemaField.deserialize raw =
        .error (.fieldNameTooLong raw.field_name (utf8Len raw.field_name)))
  ∧ (utf8Len raw.field_name ≤ 40 →
      ∀ name len, SchemaField.deserialize raw ≠ .error (.fieldNameTooLong name len)) := by
  constructor
  · intro h1
    unfold SchemaField.deserialize
    rw [if_pos h1]
  · intro h1 name len hc
    unfold SchemaField.deserialize at hc
    rw [if_neg (by omega)] at hc
    split at hc <;> try simp_all
    split at hc <;> try simp_all
    split at hc <;> try simp_all
    split at hc <;> try simp_all
    split at hc <;> simp_all

/-- Witness for C3: a 42-byte field name is rejected with its name and
length, and a 5-byte field name never triggers the length error. -/
theorem deserialize_field_name_length_witness :
    SchemaField.deserialize ⟨"averyveryverylongfieldnamethatkeepsongoing", "d", "text", "true"⟩ =
      .error (.fieldNameTooLong "averyveryverylongfieldnamethatkeepsongoing" 42)
  ∧ SchemaField.deserialize ⟨"title", "Paper title", "text", "false"⟩ ≠
      .error (.fieldNameTooLong "title" 5) :=
  ⟨(deserialize_field_name_length ⟨"averyveryverylongfieldnamethatkeepsongoing", "d", "text", "true"⟩).1
      (by decide),
    (deserialize_field_name_length ⟨"title", "Paper title", "text", "false"⟩).2
      (by decide) "title" 5⟩

/-- C9: a row with a non-ASCII character in `field_name` or `description` is
always rejected, and a successfully validated `SchemaField` only ever holds
ASCII `field_name` and `description`. -/
theorem deserialize_rejects_non_ascii (raw : RawSchemaField) :
    ((asciiOnly raw.field_name = false ∨ asciiOnly raw.description = false) →
      ∀ f, SchemaField.deserialize raw ≠ .ok f)
  ∧ (∀ f, SchemaField.deserialize raw = .ok f →
      asciiOnly f.field_name = true ∧ asciiOnly f.description = true) := by
  constructor
  · intro h f hc
    obtain ⟨-, h2, -, h4, -⟩ := (deserialize_ok_iff raw f).mp hc
    cases h with
    | inl h => rw [h2] at h; exact Bool.noConfusion h
    | inr h => rw [h4] at h; exact Bool.noConfusion h
  · intro f hc
    obtain ⟨-, h2, -, h4, -, -, h7, h8⟩ := (deserialize_ok_iff raw f).mp hc
    rw [h7, h8]
    exact ⟨h2, h4⟩

/-- Witness for C9: a non-ASCII field name is rejected, and a validated
all-ASCII row reports ASCII contents. -/
theorem deserialize_rejects_non_ascii_witness :
    SchemaField.deserialize ⟨"é", "d", "text", "true"⟩ ≠ .ok ⟨"é", "d", .Text, true⟩
  ∧ (asciiOnly "title" = true ∧ asciiOnly "Paper title" = true) :=
  ⟨(deserialize_rejects_non_ascii ⟨"é", "d", "text", "true"⟩).1 (Or.inl (by decide))
      ⟨"é", "d", .Text, true⟩,
    (deserialize_rejects_non_ascii ⟨"title", "Paper title", "text", "false"⟩).2
      ⟨"title", "Paper title", .Text, false⟩ (by decide)⟩

/-- Processing `pre ++ tail` first consumes `pre`; when `pre` succeeds with
`fs`, the loop continues on `tail` with the advanced index and the names of
`fs` added to the seen set, prepending `fs` to the result. -/
theorem parseRows_append (pre tail : List RawSchemaField) (idx : Nat) (seen : List String)
    (fs : List SchemaField) (h : parseRows idx seen pre = .ok fs) :
    parseRows idx seen (pre ++ tail) =
      match parseRows (idx + pre.length) ((fs.map SchemaField.field_name).reverse ++ seen) tail with
      | .error e => .error e
      | .ok gs => .ok (fs ++ gs) := by
  induction pre generalizing idx seen fs with
  | nil =>
    simp only [parseRows] at h
    obtain rfl := (Except.ok.inj h).symm
    simp only [List.nil_append, List.map_nil, List.reverse_nil, List.length_nil, Nat.add_zero]
    cases parseRows idx seen tail <;> simp
  | cons r pre ih =>
    simp only [parseRows] at h
    cases hd : SchemaField.deserialize r with
    | error e => rw [hd] at h; exact Except.noConfusion h
    | ok f =>
      simp only [hd] at h
      by_cases hmem : f.field_name ∈ seen
      · rw [if_pos hmem] at h; exact Except.noConfusion h
      · rw [if_neg hmem] at h
        cases hrec : parseRows (idx + 1) (f.field_name :: seen) pre with
        | error e => rw [hrec] at h; exact Except.noConfusion h
        | ok fs' =>
          rw [hrec] at h
          obtain rfl := Except.ok.inj h
          have hcont := ih (idx + 1) (f.field_name :: seen) fs' hrec
          have harr : idx + 1 + pre.length = idx + (r :: pre).length := by
            simp only [List.length_cons]; omega
          have hseen : (fs'.map SchemaField.field_name).reverse ++ (f.field_name :: seen) =
              (((f :: fs').map SchemaField.field_name).reverse ++ seen) := by
            simp
          rw [harr, hseen] at hcont
          simp only [List.cons_append, parseRows, hd, if_neg hmem, List.append_eq]
          rw [hcont]
          cases parseRows (idx + (r :: pre).length)
              (((f :: fs').map SchemaField.field_name).reverse ++ seen) tail <;> simp

/-- A successful run of the loader's loop validates exactly the input rows in
order, accepts no name from the ambient seen set, and yields pairwise
distinct names. -/
theorem parseRows_ok_spec (rows : List RawSchemaField) (idx : Nat) (seen : List String)
    (fs : List SchemaField) (h : parseRows idx seen rows = .ok fs) :
    rows.map SchemaField.deserialize = fs.map Except.ok
  ∧ (∀ n ∈ fs.map SchemaField.field_name, n ∉ seen)
  ∧ (fs.map SchemaField.field_name).Nodup := by
  induction rows generalizing idx seen fs with
  | nil =>
    simp only [parseRows] at h
    obtain rfl := (Except.ok.inj h).symm
    simp
  | cons r rows ih =>
    simp only [parseRows] at h
    cases hd : SchemaField.deserialize r with
    | error e => rw [hd] at h; exact Except.noConfusion h
    | ok f =>
      simp only [hd] at h
      by_cases hmem : f.field_name ∈ seen
      · rw [if_pos hmem] at h; exact Except.noConfusion h
      · rw [if_neg hmem] at h
        cases hrec : parseRows (idx + 1) (f.field_name :: seen) rows with
        | error e => rw [hrec] at h; exact Except.noConfusion h
        | ok fs' =>
          rw [hrec] at h
          obtain rfl := Except.ok.inj h
          obtain ⟨ihmap, ihseen, ihnodup⟩ := ih (idx + 1) (f.field_name :: seen) fs' hrec
          refine ⟨by simp [hd, ihmap], ?_, ?_⟩
          · intro n hn
            simp only [List.map_cons, List.mem_cons] at hn
            cases hn with
            | inl hn => rw [hn]; exact hmem
            | inr hn =>
              intro hcontra
              exact ihseen n hn (List.mem_cons_of_mem _ hcontra)
          · simp only [List.map_cons, List.nodup_cons]
            refine ⟨?_, ihnodup⟩
            intro hcontra
            exact ihseen f.field_name hcontra (List.mem_cons_self _ _)

/-- C4: when every row before some row `r` validates (yielding `fs`) and `r`
itself validates to a field whose name already occurred, loading fails with a
duplicate-field-name error naming that field and the 1-based row number of
the second occurrence (`pre.length + 2`, the header counting as row 1), and
the outcome is independent of all rows after `r` — they are never
validated. -/
theorem parse_schema_csv_duplicate (pre : List RawSchemaField) (r : RawSchemaField)
    (rest rest' : List RawSchemaField) (fs : List SchemaField) (f : SchemaField)
    (hpre : parse_schema_csv pre = .ok fs)
    (hr : SchemaField.deserialize r = .ok f)
    (hdup : f.field_name ∈ fs.map SchemaField.field_name) :
    parse_schema_csv (pre ++ r :: rest) =
      .error (.duplicateFieldName f.field_name (pre.length + 2))
  ∧ parse_schema_csv (pre ++ r :: rest) = parse_schema_csv (pre ++ r :: rest') := by
  have key : ∀ tail : List RawSchemaField,
      parse_schema_csv (pre ++ r :: tail) =
        .error (.duplicateFieldName f.field_name (pre.length + 2)) := by
    intro tail
    unfold parse_schema_csv at hpre ⊢
    rw [parseRows_append pre (r :: tail) 0 [] fs hpre]
    have hmem : f.field_name ∈ (fs.map SchemaField.field_name).reverse ++ ([] : List String) := by
      simp [hdup]
    simp only [parseRows, hr, if_pos hmem, Nat.zero_add]
  exact ⟨key rest, (key rest).trans (key rest').symm⟩

/-- Witness for C4: a schema whose second data row reuses the first row's
field name fails at row 3 with that name, whatever follows. -/
theorem parse_schema_csv_duplicate_witness :
    parse_schema_csv [⟨"year", "First", "text", "true"⟩, ⟨"year", "Second", "number", "false"⟩,
        ⟨"junk", "never looked at", "bogus", "maybe"⟩] =
      .error (.duplicateFieldName "year" 3)
  ∧ parse_schema_csv [⟨"year", "First", "text", "true"⟩, ⟨"year", "Second", "number", "false"⟩,
        ⟨"junk", "never looked at", "bogus", "maybe"⟩] =
      parse_schema_csv [⟨"year", "First", "text", "true"⟩, ⟨"year", "Second", "number", "false"⟩] := by
  have h := parse_schema_csv_duplicate [⟨"year", "First", "text", "true"⟩]
    ⟨"year", "Second", "number", "false"⟩
    [⟨"junk", "never looked at", "bogus", "maybe"⟩] []
    [⟨"year", "First", .Text, true⟩] ⟨"year", "Second", .Number, false⟩
    (by decide) (by decide) (by decide)
  exact h

/-- C5: when loading succeeds, the returned sequence is exactly the
validation image of the input rows in input order (same length, row `i`
validating to field `i`), and no two returned fields share a
`field_name`. -/
theorem parse_schema_csv_ok_spec (rows : List RawSchemaField) (fs : List SchemaField)
    (h : parse_schema_csv rows = .ok fs) :
    rows.map SchemaField.deserialize = fs.map Except.ok
  ∧ (fs.map SchemaField.field_name).Nodup := by
  obtain ⟨hmap, -, hnodup⟩ := parseRows_ok_spec rows 0 [] fs h
  exact ⟨hmap, hnodup⟩

/-- Witness for C5: a concrete two-row schema loads to its two validated
fields in order, with distinct names. -/
theorem parse_schema_csv_ok_spec_witness :
    [(⟨"title", "Paper title", "text", "false"⟩ : RawSchemaField),
        ⟨"year", "Publication year", "number", "true"⟩].map SchemaField.deserialize =
      [(⟨"title", "Paper title", .Text, false⟩ : SchemaField),
        ⟨"year", "Publication year", .Number, true⟩].map Except.ok
  ∧ ([(⟨"title", "Paper title", .Text, false⟩ : SchemaField),
        ⟨"year", "Publication year", .Number, true⟩].map SchemaField.field_name).Nodup :=
  parse_schema_csv_ok_spec
    [⟨"title", "Paper title", "text", "false"⟩, ⟨"year", "Publication year", "number", "true"⟩]
    [⟨"title", "Paper title", .Text, false⟩, ⟨"year", "Publication year", .Number, true⟩]
    (by decide)

/-- The accumulation loop of `build_json_schema` produces the per-field maps
in field order. -/
theorem build_json_schema_eq (fields : List SchemaField) :
    build_json_schema fields = .obj [
      ("type", .str "object"),
      ("properties", .obj (fields.map fun f => (f.field_name, fieldSchema f))),
      ("required", .arr (fields.map fun f => .str f.field_name)),
      ("additionalProperties", .bool false)] := by
  have key : ∀ (fs : List SchemaField) (p : List (String × Json)) (r : List String),
      fs.foldl
        (fun acc field =>
          (acc.1 ++ [(field.field_name, fieldSchema field)], acc.2 ++ [field.field_name]))
        (p, r)
      = (p ++ fs.map (fun f => (f.field_name, fieldSchema f)),
          r ++ fs.map SchemaField.field_name) := by
    intro fs
    induction fs with
    | nil => intro p r; simp
    | cons f fs ih => intro p r; simp [ih]
  unfold build_json_schema
  rw [key]
  simp [Function.comp_def]

/-- C1: the compiled output contract is an object that requires every field
name in order, forbids additional top-level properties, and maps each field
name to an object whose required members (and property keys) are exactly
`value, match_type, comment, page, xmin, ymin, xmax, ymax`, with `value`
nullable (`number` for kind `Number`, `string` otherwise), `match_type` a
string restricted to `found|not_found|inferred`, `comment` a nullable
string, `page` an integer, and the four coordinates numbers. -/
theorem build_json_schema_contract (fields : List SchemaField) :
    (build_json_schema fields).lookup "type" = some (.str "object")
  ∧ (build_json_schema fields).lookup "required" =
      some (.arr (fields.map fun f => .str f.field_name))
  ∧ (build_json_schema fields).lookup "additionalProperties" = some (.bool false)
  ∧ (build_json_schema fields).lookup "properties" =
      some (.obj (fields.map fun f => (f.field_name, fieldSchema f)))
  ∧ ∀ f : SchemaField,
      (fieldSchema f).lookup "required" =
        some (.arr [.str "value", .str "match_type", .str "comment", .str "page",
          .str "xmin", .str "ymin", .str "xmax", .str "ymax"])
    ∧ ((fieldSchema f).lookup "properties").map Json.keys =
        some ["value", "match_type", "comment", "page", "xmin", "ymin", "xmax", "ymax"]
    ∧ (fieldSchema f).lookup2 "properties" "value" =
        some (.obj [
          ("type", .arr [.str (if f.kind = .Number then "number" else "string"), .str "null"]),
          ("description", .str f.description)])
    ∧ (fieldSchema f).lookup2 "properties" "match_type" =
        some (.obj [
          ("type", .str "string"),
          ("enum", .arr [.str "found", .str "not_found", .str "inferred"])])
    ∧ (fieldSchema f).lookup2 "properties" "comment" =
        some (.obj [("type", .arr [.str "string", .str "null"])])
    ∧ (fieldSchema f).lookup2 "properties" "page" =
        some (.obj [("type", .str "integer")])
    ∧ (fieldSchema f).lookup2 "properties" "xmin" = some (.obj [("type", .str "number")])
    ∧ (fieldSchema f).lookup2 "properties" "ymin" = some (.obj [("type", .str "number")])
    ∧ (fieldSchema f).lookup2 "properties" "xmax" = some (.obj [("type", .str "number")])
    ∧ (fieldSchema f).lookup2 "properties" "ymax" = some (.obj [("type", .str "number")]) := by
  rw [build_json_schema_eq]
  refine ⟨rfl, rfl, rfl, rfl, ?_⟩
  intro f
  obtain ⟨n, d, k, i⟩ := f
  cases k <;>
    exact ⟨rfl, rfl, rfl, rfl, rfl, rfl, rfl, rfl, rfl, rfl⟩

/-- The accumulation loop of the `src/main.rs` compiler, in map form. -/
theorem main_build_json_schema_eq (fields : List MainSchemaField) :
    main_build_json_schema fields = .obj [
      ("type", .str "object"),
      ("properties", .obj (fields.map fun f => (f.field_name, mainFieldSchema f))),
      ("required", .arr (fields.map fun f => .str f.field_name)),
      ("additionalProperties", .bool false)] := by
  have key : ∀ (fs : List MainSchemaField) (p : List (String × Json)) (r : List String),
      fs.foldl
        (fun acc field =>
          (acc.1 ++ [(field.field_name, mainFieldSchema field)], acc.2 ++ [field.field_name]))
        (p, r)
      = (p ++ fs.map (fun f => (f.field_name, mainFieldSchema f)),
          r ++ fs.map MainSchemaField.field_name) := by
    intro fs
    induction fs with
    | nil => intro p r; simp
    | cons f fs ih => intro p r; simp [ih]
  unfold main_build_json_schema
  rw [key]
  simp [Function.comp_def]

/-- Counterexample to C10: on one identical text field the two compilers
disagree — `src/main.rs` types `comment` as a plain string while
`src/schema.rs` types it as a nullable string. -/
theorem main_vs_schema_counterexample :
    main_build_json_schema [⟨"title", "Paper title", "text", false⟩] ≠
      build_json_schema [⟨"title", "Paper title", .Text, false⟩] := by
  intro h
  have h2 := congrArg
    (fun j => (j.lookup2 "properties" "title").bind
      (fun v => v.lookup2 "properties" "comment")) h
  have hL : ((main_build_json_schema [⟨"title", "Paper title", "text", false⟩]).lookup2
      "properties" "title").bind (fun v => v.lookup2 "properties" "comment") =
      some (.obj [("type", .str "string")]) := rfl
  have hR : ((build_json_schema [⟨"title", "Paper title", .Text, false⟩]).lookup2
      "properties" "title").bind (fun v => v.lookup2 "properties" "comment") =
      some (.obj [("type", .arr [.str "string", .str "null"])]) := rfl
  simp only at h2
  rw [hL, hR] at h2
  simp at h2

/-- C10 as amended: on identical field lists the two compilers agree on the
top-level object and on every per-field member except exactly two — the
`comment` property, a plain string in `src/main.rs` but a nullable string in
`src/schema.rs`, and the per-field `additionalProperties: false`, present
only in `src/schema.rs`. -/
theorem main_vs_schema_agree_except_comment (fields : List SchemaField) :
    (main_build_json_schema (fields.map toMainField)).lookup "type" =
      (build_json_schema fields).lookup "type"
  ∧ (main_build_json_schema (fields.map toMainField)).lookup "required" =
      (build_json_schema fields).lookup "required"
  ∧ (main_build_json_schema (fields.map toMainField)).lookup "additionalProperties" =
      (build_json_schema fields).lookup "additionalProperties"
  ∧ (main_build_json_schema (fields.map toMainField)).lookup "properties" =
      some (.obj (fields.map fun f => (f.field_name, mainFieldSchema (toMainField f))))
  ∧ (build_json_schema fields).lookup "properties" =
      some (.obj (fields.map fun f => (f.field_name, fieldSchema f)))
  ∧ ∀ f : SchemaField,
      (mainFieldSchema (toMainField f)).lookup "type" = (fieldSchema f).lookup "type"
    ∧ (mainFieldSchema (toMainField f)).lookup "required" = (fieldSchema f).lookup "required"
    ∧ (∀ k : String, k ≠ "comment" →
        (mainFieldSchema (toMainField f)).lookup2 "properties" k =
          (fieldSchema f).lookup2 "properties" k)
    ∧ (mainFieldSchema (toMainField f)).lookup2 "properties" "comment" =
        some (.obj [("type", .str "string")])
    ∧ (fieldSchema f).lookup2 "properties" "comment" =
        some (.obj [("type", .arr [.str "string", .str "null"])])
    ∧ (mainFieldSchema (toMainField f)).lookup "additionalProperties" = none
    ∧ (fieldSchema f).lookup "additionalProperties" = some (.bool false) := by
  rw [build_json_schema_eq, main_build_json_schema_eq]
  simp only [List.map_map, Function.comp_def]
  refine ⟨rfl, rfl, rfl, rfl, rfl, ?_⟩
  intro f
  obtain ⟨n, d, k, i⟩ := f
  have hk : ∀ k : String, k ≠ "comment" → (k == "comment") = false := by
    intro k hkne
    exact beq_eq_false_iff_ne.mpr hkne
  cases k <;>
    refine ⟨rfl, rfl, ?_, rfl, rfl, rfl, rfl⟩ <;>
    · intro k hkne
      simp [mainFieldSchema, fieldSchema, toMainField, kindLiteral, Json.lookup2,
        Json.lookup, List.lookup, hk k hkne]

/-- Witness for the amended C10: at a concrete text field the two compilers
share the top-level required list and the per-field `page` property. -/
theorem main_vs_schema_agree_except_comment_witness :
    (main_build_json_schema [⟨"title", "Paper title", "text", false⟩]).lookup "required" =
      (build_json_schema [⟨"title", "Paper title", .Text, false⟩]).lookup "required"
  ∧ (mainFieldSchema ⟨"title", "Paper title", "text", false⟩).lookup2 "properties" "page" =
      (fieldSchema ⟨"title", "Paper title", .Text, false⟩).lookup2 "properties" "page" := by
  have h := main_vs_schema_agree_except_comment [⟨"title", "Paper title", .Text, false⟩]
  exact ⟨h.2.1,
    (h.2.2.2.2.2 ⟨"title", "Paper title", .Text, false⟩).2.2.1 "page" (by decide)⟩

theorem string_join_cons (a : String) (l : List String) :
    String.join (a :: l) = a ++ String.join l := by
  apply String.ext
  simp

/-- C7: the compiled prompt is the template with its substitution point
replaced by the per-field listing, which is, in field order, one line naming
the field and its description, followed — exactly when `infer` is true — by
the line instructing that the field should be inferred when not explicitly
found. -/
theorem build_prompt_spec (template : String) (fields : List SchemaField) :
    build_prompt template fields =
      template.replace "\x7b\x7bFIELDS_LIST\x7d\x7d"
        (String.join (fields.map fun field =>
          "- **" ++ field.field_name ++ "**: " ++ field.description ++ "\n" ++
            if field.infer then "  (This field should be inferred if not explicitly found)\n"
            else "")) := by
  unfold build_prompt
  congr 1
  unfold buildFieldsList
  have key : ∀ (fs : List SchemaField) (acc : String),
      fs.foldl
        (fun fields_list field =>
          let fields_list :=
            fields_list ++ "- **" ++ field.field_name ++ "**: " ++ field.description ++ "\n"
          if field.infer then
            fields_list ++ "  (This field should be inferred if not explicitly found)\n"
          else fields_list)
        acc
      = acc ++ String.join (fs.map fun field =>
          "- **" ++ field.field_name ++ "**: " ++ field.description ++ "\n" ++
            if field.infer then "  (This field should be inferred if not explicitly found)\n"
            else "") := by
    intro fs
    induction fs with
    | nil =>
      intro acc
      simp [String.join, String.append_empty]
    | cons f fs ih =>
      intro acc
      simp only [List.foldl_cons, List.map_cons, string_join_cons, ih]
      cases hi : f.infer <;>
        simp [hi, String.append_assoc, String.append_empty]
  rw [key]
  exact (String.empty_append _).symm

theorem writeCsvRows_first_missing {Num : Type} (numToStr : Num → String)
    (jsonToStr : Json → String) (extracted : List (String × ExtractedField Num))
    (pre : List MainSchemaField) (field : MainSchemaField) (post : List MainSchemaField)
    (hpre : ∀ g ∈ pre, (extracted.lookup g.field_name).isSome = true)
    (hmiss : extracted.lookup field.field_name = none) :
    writeCsvRows numToStr jsonToStr extracted (pre ++ field :: post) =
      .error ("Field " ++ field.field_name ++ " not found in extraction result") := by
  induction pre with
  | nil => simp [writeCsvRows, hmiss]
  | cons g pre ih =>
    have hg := hpre g (by simp)
    obtain ⟨d, hd⟩ := Option.isSome_iff_exists.mp hg
    simp only [List.cons_append, writeCsvRows, hd, List.append_eq]
    rw [ih (fun x hx => hpre x (by simp [hx]))]

theorem writeCsvRows_ok_iff {Num : Type} (numToStr : Num → String)
    (jsonToStr : Json → String) (extracted : List (String × ExtractedField Num))
    (fields : List MainSchemaField) :
    (∃ rows, writeCsvRows numToStr jsonToStr extracted fields = .ok rows) ↔
      ∀ field ∈ fields, (extracted.lookup field.field_name).isSome = true := by
  induction fields with
  | nil => simp [writeCsvRows]
  | cons field fs ih =>
    constructor
    · rintro ⟨rows, hrows⟩
      simp only [writeCsvRows] at hrows
      cases hl : extracted.lookup field.field_name with
      | none => rw [hl] at hrows; exact Except.noConfusion hrows
      | some d =>
        rw [hl] at hrows
        cases hrec : writeCsvRows numToStr jsonToStr extracted fs with
        | error e => rw [hrec] at hrows; exact Except.noConfusion hrows
        | ok rows' =>
          intro g hg
          cases hg with
          | head => simp [hl]
          | tail _ hg => exact (ih.mp ⟨rows', hrec⟩) g hg
    · intro hall
      obtain ⟨d, hd⟩ := Option.isSome_iff_exists.mp (hall field (by simp))
      obtain ⟨rows', hrec⟩ := ih.mpr (fun g hg => hall g (List.mem_cons_of_mem _ hg))
      exact ⟨[field.field_name, renderValue jsonToStr d.value, d.match_type, d.comment,
          toString d.page, numToStr d.xmin, numToStr d.ymin, numToStr d.xmax,
          numToStr d.ymax] :: rows',
        by simp only [writeCsvRows, hd, hrec]⟩

/-- C6: the output writer fails with the source's field-missing message at
the first schema field absent from the decoded extraction mapping and emits
no row set, and it produces a row set exactly when every schema field has an
entry. -/
theorem write_csv_schema_complete {Num : Type} (numToStr : Num → String)
    (jsonToStr : Json → String) (fields : List MainSchemaField)
    (extracted : List (String × ExtractedField Num)) :
    (∀ pre field post, fields = pre ++ field :: post →
      (∀ g ∈ pre, (extracted.lookup g.field_name).isSome = true) →
      extracted.lookup field.field_name = none →
      write_csv numToStr jsonToStr fields extracted =
        .error ("Field " ++ field.field_name ++ " not found in extraction result"))
  ∧ ((∃ rows, write_csv numToStr jsonToStr fields extracted = .ok rows) ↔
      ∀ field ∈ fields, (extracted.lookup field.field_name).isSome = true) := by
  constructor
  · intro pre field post hsplit hpre hmiss
    unfold write_csv
    subst hsplit
    rw [writeCsvRows_first_missing numToStr jsonToStr extracted pre field post hpre hmiss]
  · unfold write_csv
    rw [← writeCsvRows_ok_iff numToStr jsonToStr extracted fields]
    constructor
    · rintro ⟨rows, hrows⟩
      cases hrec : writeCsvRows numToStr jsonToStr extracted fields with
      | error e => rw [hrec] at hrows; exact Except.noConfusion hrows
      | ok rows' => exact ⟨rows', rfl⟩
    · rintro ⟨rows', hrec⟩
      refine ⟨["field_name", "value", "match_type", "comment", "page",
        "xmin", "ymin", "xmax", "ymax"] :: rows', ?_⟩
      rw [hrec]

/-- Witness for C6: with an empty extraction mapping the single-field schema
fails naming `title`; with the entry present a row set is produced. -/
theorem write_csv_schema_complete_witness :
    @write_csv Int toString (fun _ => "") [⟨"title", "Paper title", "text", false⟩] [] =
      .error ("Field " ++ "title" ++ " not found in extraction result")
  ∧ (∃ rows, @write_csv Int toString (fun _ => "")
      [⟨"title", "Paper title", "text", false⟩]
      [("title", ⟨some (.str "Attention"), "found", "", 1, 0, 0, 0, 0⟩)] = .ok rows) := by
  constructor
  · exact (write_csv_schema_complete toString (fun _ => "")
      [⟨"title", "Paper title", "text", false⟩] []).1
      [] ⟨"title", "Paper title", "text", false⟩ [] rfl (by simp) (by simp)
  · exact (write_csv_schema_complete toString (fun _ => "")
      [⟨"title", "Paper title", "text", false⟩]
      [("title", ⟨some (.str "Attention"), "found", "", 1, 0, 0, 0, 0⟩)]).2.mpr
      (by simp)

theorem chunkAux_flatten {α : Type} (k : Nat) (l : List α) :
    (chunkAux k l).flatten = l := by
  induction l using chunkAux.induct k with
  | case1 => simp [chunkAux]
  | case2 a as ih =>
    rw [chunkAux]
    simp only [List.flatten_cons, List.cons_append, ih]
    simp [List.take_append_drop]

theorem chunkAux_length {α : Type} (k : Nat) (l : List α) :
    (chunkAux k l).length = (l.length + k) / (k + 1) := by
  induction l using chunkAux.induct k with
  | case1 => simp [chunkAux, Nat.div_eq_of_lt]
  | case2 a as ih =>
    rw [chunkAux]
    simp only [List.length_cons, ih, List.length_drop]
    by_cases hk : k ≤ as.length
    · have h1 : as.length - k + k = as.length := by omega
      have h2 : as.length + 1 + k = as.length + (k + 1) := by omega
      rw [h1, h2, Nat.add_div_right _ (by omega)]
    · have h1 : as.length - k = 0 := by omega
      have h2 : (0 + k) / (k + 1) = 0 := Nat.div_eq_of_lt (by omega)
      rw [h1, h2]
      exact (Nat.div_eq_of_lt_le (by omega) (by omega)).symm

theorem chunkAux_mem_length {α : Type} (k : Nat) (l : List α) :
    ∀ b ∈ chunkAux k l, b.length ≤ k + 1 := by
  induction l using chunkAux.induct k with
  | case1 => simp [chunkAux]
  | case2 a as ih =>
    rw [chunkAux]
    intro b hb
    cases hb with
    | head =>
      simp only [List.length_cons]
      have := List.length_take_le k as
      omega
    | tail _ hb => exact ih b hb

theorem chunkAux_getElem {α : Type} (k : Nat) (l : List α) (i : Nat)
    (hi : i < (chunkAux k l).length) :
    (chunkAux k l)[i]? = some ((l.drop (i * (k + 1))).take (k + 1)) := by
  induction i generalizing l with
  | zero =>
    cases l with
    | nil => rw [chunkAux] at hi; exact absurd hi (by simp)
    | cons a as =>
      rw [chunkAux]
      simp [List.take_succ_cons]
  | succ i ih =>
    cases l with
    | nil => rw [chunkAux] at hi; exact absurd hi (by simp)
    | cons a as =>
      rw [chunkAux] at hi ⊢
      simp only [List.getElem?_cons_succ]
      rw [ih (as.drop k) (by simpa using hi)]
      have h1 : (as.drop k).drop (i * (k + 1)) = as.drop (i * (k + 1) + k) := by
        rw [List.drop_drop]
        congr 1
        omega
      have h2 : (a :: as).drop ((i + 1) * (k + 1)) = as.drop (i * (k + 1) + k) := by
        have h3 : (i + 1) * (k + 1) = (i * (k + 1) + k) + 1 := by ring
        rw [h3, List.drop_succ_cons]
      rw [h1, h2]

/-- C2 (Batch Planner modelled from the spec, §4.5): for every batch size
`k ≥ 1` on `n` fields the planner yields exactly `⌈n/k⌉ = (n + k - 1) / k`
batches; batch `i` is the contiguous slice of length at most `k` starting
at position `i·k`, and the in-order concatenation of all batches is the
original field sequence — no field duplicated or dropped. -/
theorem planBatches_spec {α : Type} (fields : List α) (k : Nat) (hk : 1 ≤ k) :
    (planBatches fields k).length = (fields.length + k - 1) / k
  ∧ (∀ b ∈ planBatches fields k, b.length ≤ k)
  ∧ (planBatches fields k).flatten = fields
  ∧ ∀ i : Nat, i < (planBatches fields k).length →
      (planBatches fields k)[i]? = some ((fields.drop (i * k)).take k) := by
  have hk1 : k - 1 + 1 = k := by omega
  unfold planBatches
  refine ⟨?_, ?_, chunkAux_flatten (k - 1) fields, ?_⟩
  · rw [chunkAux_length, hk1]
    congr 1
    omega
  · intro b hb
    have := chunkAux_mem_length (k - 1) fields b hb
    omega
  · intro i hi
    have h := chunkAux_getElem (k - 1) fields i hi
    rw [hk1] at h
    exact h

/-- Witness for C2: batch size 2 on five fields yields three batches —
`[1,2]`, `[3,4]`, `[5]` — whose concatenation is the original list. -/
theorem planBatches_spec_witness :
    (planBatches [1, 2, 3, 4, 5] 2).length = ([1, 2, 3, 4, 5].length + 2 - 1) / 2
  ∧ (∀ b ∈ planBatches [1, 2, 3, 4, 5] 2, b.length ≤ 2)
  ∧ (planBatches [1, 2, 3, 4, 5] 2).flatten = [1, 2, 3, 4, 5]
  ∧ ∀ i : Nat, i < (planBatches [1, 2, 3, 4, 5] 2).length →
      (planBatches [1, 2, 3, 4, 5] 2)[i]? = some (([1, 2, 3, 4, 5].drop (i * 2)).take 2) :=
  planBatches_spec [1, 2, 3, 4, 5] 2 (by decide)

end PaperExtract
